import Mathlib

/-!
Verification development for scripts/imdb_hash_extractor.py.

Strings are modelled as lists of characters.  The two Python standard
library calls `urllib.parse.unquote` and `json.loads` (which are not part of
this repository) are modelled together as one oracle `decode` carried in the
environment: `decode enc` is `some v` when `json.loads(unquote(enc))`
succeeds with value `v`, and `none` when it raises `json.JSONDecodeError`.
Every regular expression of the script is implemented directly with
Python's leftmost-match `re.search` semantics (the patterns involved are
deterministic, so no general backtracking engine is needed).  The character
class `\s` is modelled by its ASCII subset, which is all that the claims
exercise.
-/

namespace ImdbHash

/-- A single quote character, written via its code point to keep the file
free of quote-escape literals. -/
def squote : Char := Char.ofNat 39

/-- A double quote character. -/
def dquote : Char := Char.ofNat 34

/-- Whether a character is one of the two quote characters of the
character class used in the constants.js regexes. -/
def isQuote (c : Char) : Bool := c == squote || c == dquote

/-- ASCII subset of the regex class backslash-s: space, tab, newline,
carriage return, vertical tab, form feed. -/
def isSpc (c : Char) : Bool :=
  c == ' ' || c == '\t' || c == '\n' || c == '\r' ||
  c == Char.ofNat 11 || c == Char.ofNat 12

/-- Whether `pat` occurs at the start of `s`. -/
def listStartsWith : List Char → List Char → Bool
  | [], _ => true
  | _ :: _, [] => false
  | p :: ps, c :: cs => p == c && listStartsWith ps cs

/-- Whether `pat` occurs as a contiguous substring of `s` (Python's
`pat in s` on strings). -/
def listContains (pat : List Char) : List Char → Bool
  | [] => listStartsWith pat []
  | c :: cs => listStartsWith pat (c :: cs) || listContains pat cs

/-- Drop the maximal run of whitespace characters (greedy backslash-s
star). -/
def dropSpaces : List Char → List Char
  | [] => []
  | c :: cs => if isSpc c then dropSpaces cs else c :: cs

/-- The maximal prefix of characters for which `stop` is false (greedy
negated character class star). -/
def takeWhileNot (stop : Char → Bool) : List Char → List Char
  | [] => []
  | c :: cs => if stop c then [] else c :: takeWhileNot stop cs

/-- Leftmost-match search: try to match at every start position from the
left and return the first capture (`re.search` semantics). -/
def searchFirst (f : List Char → Option (List Char)) : List Char → Option (List Char)
  | [] => f []
  | c :: cs =>
    match f (c :: cs) with
    | some r => some r
    | none => searchFirst f cs

/-- The literal before the equals sign in the primary constants.js regex. -/
def constDeclLit : List Char := "const CRAWL4AI_DOCKER_SERVER".toList

/-- The bare constant name searched for by the fallback in
get_crawl4ai_server_url. -/
def tokenLit : List Char := "CRAWL4AI_DOCKER_SERVER".toList

/-- The hard-coded server address of the fallback regex. -/
def addrLit : List Char := "129.151.250.86:11235".toList

/-- Matcher at one position for the regex
const CRAWL4AI_DOCKER_SERVER backslash-s star equals backslash-s star
quote capture-of-nonquote-plus quote.  The quantifiers are over disjoint
character sets, so greedy matching is exact. -/
def primaryMatchAt (s : List Char) : Option (List Char) :=
  if listStartsWith constDeclLit s then
    match dropSpaces (s.drop constDeclLit.length) with
    | '=' :: r1 =>
      match dropSpaces r1 with
      | q :: r2 =>
        if isQuote q then
          let cap := takeWhileNot isQuote r2
          if cap.length = 0 then none
          else if cap.length < r2.length then some cap else none
        else none
      | [] => none
    | _ => none
  else none

/-- Leftmost match of the primary CRAWL4AI_DOCKER_SERVER regex. -/
def primarySearch (content : List Char) : Option (List Char) :=
  searchFirst primaryMatchAt content

/-- Matcher at one position for the fallback regex: a quote, a captured
run of non-quote characters containing the hard-coded address, and a
closing quote. -/
def fallbackMatchAt (s : List Char) : Option (List Char) :=
  match s with
  | [] => none
  | q :: r =>
    if isQuote q then
      let cap := takeWhileNot isQuote r
      if listContains addrLit cap && cap.length < r.length then some cap else none
    else none

/-- Leftmost match of the fallback quoted-address regex. -/
def fallbackSearch (content : List Char) : Option (List Char) :=
  searchFirst fallbackMatchAt content

/-- Message of the exception raised when constants.js is missing. -/
def fnfMsg : List Char := "constants.js file not found".toList

/-- Message of the exception raised when no server URL is found; the
inner not-found exception is re-wrapped by the generic except clause. -/
def notFoundMsg : List Char :=
  "Error reading constants.js: CRAWL4AI_DOCKER_SERVER not found in constants.js".toList

/-- get_crawl4ai_server_url from the script.  The input is the contents
of constants.js, or `none` when opening the file raises
FileNotFoundError.  The result is the returned URL or the message of the
raised Exception. -/
def get_crawl4ai_server_url : Option (List Char) → Except (List Char) (List Char)
  | none => .error fnfMsg
  | some content =>
    match primarySearch content with
    | some url => .ok url
    | none =>
      if listContains tokenLit content then
        match fallbackSearch content with
        | some url => .ok url
        | none => .error notFoundMsg
      else .error notFoundMsg

/-- JSON values as produced by the decode oracle.  Objects coming from
json.loads have pairwise distinct keys. -/
inductive JVal where
  | obj : List (List Char × JVal) → JVal
  | arr : List JVal → JVal
  | str : List Char → JVal
  | num : Int → JVal
  | boolV : Bool → JVal
  | nullV : JVal

instance : Inhabited JVal := ⟨JVal.nullV⟩

/-- A captured network event: the two dictionary fields the script reads,
each possibly absent. -/
structure NetRequest where
  event_type : Option (List Char)
  url : Option (List Char)
deriving DecidableEq

/-- The fields of a crawl result object that the script reads.
`error_message` holds the string form of the attribute. -/
structure CrawlResult where
  success : Bool
  error_message : List Char
  network_requests : List NetRequest
deriving DecidableEq

/-- The shape of the value returned by client.crawl: a sequence of
results or a single result object. -/
inductive CrawlResults where
  | many : List CrawlResult → CrawlResults
  | single : CrawlResult → CrawlResults
deriving DecidableEq

/-- A Python exception as observed by callers: an Exception carrying a
known message, or a TypeError raised by a membership or indexing
operation on an unsupported operand type (its message is runtime
dependent). -/
inductive PyExc where
  | exc : List Char → PyExc
  | pyTypeError : PyExc
deriving DecidableEq

/-- The environment of one run: the contents of constants.js (none when
the file is missing), the value returned by the crawl call (none when it
is None), the unquote-then-json.loads oracle, the runtime's TypeError
message text, and the clock value used for the timestamp field. -/
structure Env where
  constants : Option (List Char)
  crawlResults : Option CrawlResults
  decode : List Char → Option JVal
  typeErrMsg : List Char
  timestamp : JVal

/-- Lookup in a JSON object (Python dict indexing; keys are distinct). -/
def dictGet (k : List Char) : List (List Char × JVal) → Option JVal
  | [] => none
  | p :: rest => if p.1 == k then some p.2 else dictGet k rest

/-- Whether a JSON value is the given string (Python equality between a
string and a list element). -/
def jvalIsStrEq (k : List Char) : JVal → Bool
  | .str s => s == k
  | _ => false

/-- Python's `k in v` for a string key: key membership for dicts, element
membership for lists, substring for strings; `none` models the TypeError
raised on other operand types. -/
def pyContains (k : List Char) : JVal → Option Bool
  | .obj fs => some (dictGet k fs).isSome
  | .arr es => some (es.any (jvalIsStrEq k))
  | .str s => some (listContains k s)
  | _ => none

/-- Outcome of one extraction attempt on one request: a returned hash, a
silent skip (no match, or a caught JSONDecodeError or KeyError), or an
uncaught TypeError. -/
inductive ExtractStep where
  | ok : JVal → ExtractStep
  | skip : ExtractStep
  | pyTypeError : ExtractStep

/-- The membership-guarded extraction of persistedQuery.sha256Hash from a
decoded extensions value, with Python's evaluation order: the first `in`
test, then indexing with persistedQuery, then the second `in` test, then
indexing with sha256Hash.  Each step on an unsupported type raises
TypeError, which the script does not catch. -/
def checkPersisted (v : JVal) : ExtractStep :=
  match pyContains ("persistedQuery".toList) v with
  | none => .pyTypeError
  | some false => .skip
  | some true =>
    match v with
    | .obj fs =>
      match dictGet ("persistedQuery".toList) fs with
      | none => .skip
      | some pq =>
        match pyContains ("sha256Hash".toList) pq with
        | none => .pyTypeError
        | some false => .skip
        | some true =>
          match pq with
          | .obj fs2 =>
            match dictGet ("sha256Hash".toList) fs2 with
            | none => .skip
            | some h => .ok h
          | _ => .pyTypeError
    | _ => .pyTypeError

/-- The literal of the extensions query parameter. -/
def extParamLit : List Char := "extensions=".toList

/-- The literal of the operationName query parameter. -/
def opParamLit : List Char := "operationName=".toList

/-- Matcher at one position for the regex extensions=capture-of-nonamp-plus. -/
def extMatchAt (s : List Char) : Option (List Char) :=
  if listStartsWith extParamLit s then
    let cap := takeWhileNot (fun c => c == '&') (s.drop extParamLit.length)
    if cap.length = 0 then none else some cap
  else none

/-- Leftmost match of the extensions parameter regex over a request URL. -/
def extractExtensions (u : List Char) : Option (List Char) :=
  searchFirst extMatchAt u

/-- Matcher at one position for the regex operationName=capture-of-nonamp-plus. -/
def opMatchAt (s : List Char) : Option (List Char) :=
  if listStartsWith opParamLit s then
    let cap := takeWhileNot (fun c => c == '&') (s.drop opParamLit.length)
    if cap.length = 0 then none else some cap
  else none

/-- Leftmost match of the operationName parameter regex over a URL. -/
def extractOpName (u : List Char) : Option (List Char) :=
  searchFirst opMatchAt u

/-- One extraction attempt on one request URL: find the extensions
parameter, decode it, and run the guarded hash lookup.  A missing
parameter or a decode failure is a caught error and yields a skip. -/
def tryExtractHash (decode : List Char → Option JVal) (u : List Char) : ExtractStep :=
  match extractExtensions u with
  | none => .skip
  | some enc =>
    match decode enc with
    | none => .skip
    | some v => checkPersisted v

/-- The event type string of outgoing requests. -/
def reqTypeLit : List Char := "request".toList

/-- The GraphQL API host substring used by the filter. -/
def apiLit : List Char := "api.graphql.imdb.com".toList

/-- The filter condition of the script: event_type equals request, the
url field is present and truthy (non-empty), and the url contains the
GraphQL host. -/
def isGraphqlRequest (r : NetRequest) : Bool :=
  r.event_type == some reqTypeLit &&
    (match r.url with
     | none => false
     | some u => !u.isEmpty && listContains apiLit u)

/-- The list of GraphQL requests kept by the filter loop, in capture
order. -/
def graphqlFilter (rs : List NetRequest) : List NetRequest :=
  rs.filter isGraphqlRequest

/-- request.get with an empty-string default, as used in both scan
loops. -/
def urlOf (r : NetRequest) : List Char := r.url.getD []

/-- The matching test of the priority pass: the URL contains the literal
operationName=name. -/
def predOp (op : List Char) (u : List Char) : Bool :=
  listContains (opParamLit ++ op) u

/-- Outcome of one scan loop: a returned hash, an uncaught TypeError
abort, or falling through the loop. -/
inductive ScanOut where
  | found : JVal → ScanOut
  | aborted : ScanOut
  | missed : ScanOut

/-- One scan loop over requests in capture order: requests failing the
match test are passed over, a skip continues, a hash returns, and a
TypeError aborts. -/
def scanRequests (decode : List Char → Option JVal) (pred : List Char → Bool) :
    List NetRequest → ScanOut
  | [] => .missed
  | r :: rs =>
    if pred (urlOf r) then
      match tryExtractHash decode (urlOf r) with
      | .ok h => .found h
      | .pyTypeError => .aborted
      | .skip => scanRequests decode pred rs
    else scanRequests decode pred rs

/-- The static priority list of the script, in source order. -/
def priorityOperations : List (List Char) :=
  ["WatchListPage".toList,
   "WatchListPageRefiner".toList,
   "PersonalizedUserData".toList,
   "YourPredefinedListsSidebar".toList,
   "YourListsSidebar".toList,
   "YourExports".toList,
   "RVI_Items".toList]

/-- The priority pass: for each operation name in order, scan all GraphQL
requests for one whose URL contains operationName=name and which yields a
hash. -/
def priorityScan (decode : List Char → Option JVal) (reqs : List NetRequest) :
    List (List Char) → ScanOut
  | [] => .missed
  | op :: ops =>
    match scanRequests decode (predOp op) reqs with
    | .found h => .found h
    | .aborted => .aborted
    | .missed => priorityScan decode reqs ops

/-- The complete two-pass scan of the script: the priority pass, then, if
it falls through, the fallback pass over all GraphQL requests. -/
def fullScan (decode : List Char → Option JVal) (gql : List NetRequest) : ScanOut :=
  match priorityScan decode gql priorityOperations with
  | .found h => .found h
  | .aborted => .aborted
  | .missed => scanRequests decode (fun _ => true) gql

/-- Message of the exception raised when the crawl returns a falsy
value; an empty sequence is also falsy, so the later empty-results branch
of the script is unreachable. -/
def noResultsMsg : List Char := "Crawl failed - no results returned".toList

/-- Selection of the result object from the value returned by the crawl
call. -/
def pickResult : Option CrawlResults → Except (List Char) CrawlResult
  | none => .error noResultsMsg
  | some (.many []) => .error noResultsMsg
  | some (.many (r :: _)) => .ok r
  | some (.single r) => .ok r

/-- Message of the exception raised when the first result is not
successful. -/
def pageFailMsg (m : List Char) : List Char :=
  "Failed to load IMDb page: ".toList ++ m

/-- Message of the exception raised when no network requests were
captured. -/
def noReqMsg : List Char := "No network requests captured".toList

/-- Message of the exception raised when both scan passes fall
through. -/
def noHashMsg : List Char :=
  "Could not extract GraphQL hash from any network requests".toList

/-- extract_imdb_graphql_hash from the script: read the server URL, pick
the first crawl result, check its success and captured requests, filter
the GraphQL requests, and run the two-pass scan.  Exceptions raised on
the way are re-raised unchanged by the generic except clauses. -/
def extract_imdb_graphql_hash (env : Env) : Except PyExc JVal :=
  match get_crawl4ai_server_url env.constants with
  | .error m => .error (.exc m)
  | .ok _ =>
    match pickResult env.crawlResults with
    | .error m => .error (.exc m)
    | .ok r =>
      if r.success then
        if r.network_requests.isEmpty then .error (.exc noReqMsg)
        else
          match fullScan env.decode (graphqlFilter r.network_requests) with
          | .found h => .ok h
          | .aborted => .error .pyTypeError
          | .missed => .error (.exc noHashMsg)
      else .error (.exc (pageFailMsg r.error_message))

/-- String form of an exception; the text of a TypeError message is
supplied by the runtime and carried in the environment. -/
def excStr (typeErrMsg : List Char) : PyExc → List Char
  | .exc m => m
  | .pyTypeError => typeErrMsg

/-- The observable outcome of main: the JSON object printed by the final
json.dumps call, with its keys in insertion order, and the process exit
status. -/
structure MainResult where
  output : JVal
  exitCode : Nat

/-- main from the script: on a returned hash, print the success object
and exit 0; on any exception, print the error object and exit 1. -/
def main (env : Env) : MainResult :=
  match extract_imdb_graphql_hash env with
  | .ok h =>
    ⟨.obj [("success".toList, .boolV true),
           ("hash".toList, h),
           ("timestamp".toList, env.timestamp)], 0⟩
  | .error e =>
    ⟨.obj [("success".toList, .boolV false),
           ("error".toList, .str (excStr env.typeErrMsg e)),
           ("timestamp".toList, env.timestamp)], 1⟩

/-- The captured network events of the run, as a derived view of the
environment (empty when no result was selected). -/
def capturedRequests (env : Env) : List NetRequest :=
  match pickResult env.crawlResults with
  | .ok r => r.network_requests
  | .error _ => []

/-- The GraphQL requests of the run, in capture order. -/
def gqlOf (env : Env) : List NetRequest :=
  graphqlFilter (capturedRequests env)

/-- Spec-side reading of the hash carried by a decoded extensions value:
the sha256Hash field of the persistedQuery object. -/
def persistedHashSpec : JVal → Option JVal
  | .obj fs =>
    match dictGet ("persistedQuery".toList) fs with
    | some (.obj fs2) => dictGet ("sha256Hash".toList) fs2
    | _ => none
  | _ => none

/-- Spec-side notion for claim C4: the hash a single request yields, when
its extraction attempt succeeds. -/
def yieldHashSpec (decode : List Char → Option JVal) (u : List Char) : Option JVal :=
  match tryExtractHash decode u with
  | .ok h => some h
  | _ => none

/-- Spec-side notion for claim C4: the hash of the first request in
capture order that passes the match test and yields a hash. -/
def firstYieldSpec (decode : List Char → Option JVal) (pred : List Char → Bool) :
    List NetRequest → Option JVal
  | [] => none
  | r :: rs =>
    if pred (urlOf r) then
      match yieldHashSpec decode (urlOf r) with
      | some h => some h
      | none => firstYieldSpec decode pred rs
    else firstYieldSpec decode pred rs


/-! Concrete inputs used by witnesses and counterexamples.  The decode
oracles below agree with unquote-then-json.loads on every string they are
applied to. -/

/-- A constants.js contents on which the primary regex matches. -/
def cGood : List Char :=
  "const CRAWL4AI_DOCKER_SERVER = 'http://129.151.250.86:11235'".toList

/-- The URL captured from cGood, also the quoted string of cFb. -/
def urlGood : List Char := "http://129.151.250.86:11235".toList

/-- A constants.js contents on which only the fallback path succeeds. -/
def cFb : List Char :=
  "exports has CRAWL4AI_DOCKER_SERVER and 'http://129.151.250.86:11235' in it".toList

/-- A percent-encoded extensions blob that decodes to vGood. -/
def encGood : List Char :=
  "%7B%22persistedQuery%22%3A%7B%22version%22%3A1%2C%22sha256Hash%22%3A%22deadbeef%22%7D%7D".toList

/-- The decoded value of encGood. -/
def vGood : JVal :=
  .obj [("persistedQuery".toList,
    .obj [("version".toList, .num 1), ("sha256Hash".toList, .str "deadbeef".toList)])]

/-- Decode oracle of the happy-path environment. -/
def decodeHappy : List Char → Option JVal :=
  fun s => if s == encGood then some vGood else none

/-- A captured request URL carrying encGood for the WatchListPage
operation. -/
def urlHappy : List Char :=
  "https://api.graphql.imdb.com/?operationName=WatchListPage&extensions=".toList ++ encGood

/-- The happy-path captured request. -/
def reqHappy : NetRequest := ⟨some reqTypeLit, some urlHappy⟩

/-- An environment in which extraction succeeds from the first priority
operation. -/
def envHappy : Env :=
  ⟨some cGood, some (.many [⟨true, [], [reqHappy]⟩]), decodeHappy, [], .nullV⟩

/-- An environment in which every lookup fails at the first step:
constants.js is missing. -/
def envErr : Env := ⟨none, none, fun _ => none, [], .nullV⟩

/-- An extensions blob that is valid JSON but not a container: the digit
five. -/
def enc5 : List Char := "5".toList

/-- A percent-encoded extensions blob that decodes to vG2. -/
def encG2 : List Char :=
  "%7B%22persistedQuery%22%3A%7B%22sha256Hash%22%3A%22cafe%22%7D%7D".toList

/-- The decoded value of encG2. -/
def vG2 : JVal :=
  .obj [("persistedQuery".toList, .obj [("sha256Hash".toList, .str "cafe".toList)])]

/-- Decode oracle mapping enc5 to the JSON number five and encG2 to
vG2, exactly as unquote-then-json.loads does. -/
def decodeC7 : List Char → Option JVal :=
  fun s => if s == enc5 then some (.num 5) else if s == encG2 then some vG2 else none

/-- A GraphQL request whose extensions decode to a bare number; the
membership test on it raises TypeError. -/
def reqBad : NetRequest :=
  ⟨some reqTypeLit, some ("https://api.graphql.imdb.com/?extensions=".toList ++ enc5)⟩

/-- A well-formed GraphQL request carrying encG2, captured after
reqBad. -/
def reqG2 : NetRequest :=
  ⟨some reqTypeLit, some ("https://api.graphql.imdb.com/?extensions=".toList ++ encG2)⟩

/-- An environment in which a malformed request precedes a well-formed
one in capture order. -/
def envC7 : Env :=
  ⟨some cGood, some (.many [⟨true, [], [reqBad, reqG2]⟩]), decodeC7, [], .nullV⟩

/-- A GraphQL request with no extensions parameter at all. -/
def reqNoExt : NetRequest :=
  ⟨some reqTypeLit, some "https://api.graphql.imdb.com/?x=1".toList⟩

/-- A percent-encoded extensions blob that decodes to vC8. -/
def encC8 : List Char :=
  "%7B%22persistedQuery%22%3A%7B%22sha256Hash%22%3A%22feed%22%7D%7D".toList

/-- The decoded value of encC8. -/
def vC8 : JVal :=
  .obj [("persistedQuery".toList, .obj [("sha256Hash".toList, .str "feed".toList)])]

/-- Decode oracle for the WatchListPageRefiner demonstration. -/
def decodeC8 : List Char → Option JVal :=
  fun s => if s == encC8 then some vC8 else none

/-- A captured request URL whose operationName is WatchListPageRefiner. -/
def urlC8 : List Char :=
  "https://api.graphql.imdb.com/?operationName=WatchListPageRefiner&extensions=".toList ++ encC8

/-- The WatchListPageRefiner request of the demonstration. -/
def reqC8 : NetRequest := ⟨some reqTypeLit, some urlC8⟩

/-! Helper lemmas about the scan loops. -/

/-- A hash found by a scan loop comes from some request in the list that
passes the match test. -/
theorem scan_found_mem (d : List Char → Option JVal) (p : List Char → Bool)
    (rs : List NetRequest) (h : JVal) (hs : scanRequests d p rs = .found h) :
    ∃ r, r ∈ rs ∧ p (urlOf r) = true ∧ tryExtractHash d (urlOf r) = .ok h := by
  induction rs with
  | nil => simp [scanRequests] at hs
  | cons r rs ih =>
    by_cases hp : p (urlOf r) = true
    · cases hte : tryExtractHash d (urlOf r) with
      | ok h1 =>
        simp [scanRequests, hp, hte] at hs
        exact ⟨r, List.mem_cons_self r rs, hp, by rw [hte, hs]⟩
      | skip =>
        simp [scanRequests, hp, hte] at hs
        obtain ⟨r2, hm, hp2, ht2⟩ := ih hs
        exact ⟨r2, List.mem_cons_of_mem r hm, hp2, ht2⟩
      | pyTypeError => simp [scanRequests, hp, hte] at hs
    · simp [scanRequests, hp] at hs
      obtain ⟨r2, hm, hp2, ht2⟩ := ih hs
      exact ⟨r2, List.mem_cons_of_mem r hm, hp2, ht2⟩

/-- A hash found by a scan loop is the hash of the first matching request
that yields one. -/
theorem scan_found_firstYield (d : List Char → Option JVal) (p : List Char → Bool)
    (rs : List NetRequest) (h : JVal) (hs : scanRequests d p rs = .found h) :
    firstYieldSpec d p rs = some h := by
  induction rs with
  | nil => simp [scanRequests] at hs
  | cons r rs ih =>
    by_cases hp : p (urlOf r) = true
    · cases hte : tryExtractHash d (urlOf r) with
      | ok h1 =>
        simp [scanRequests, hp, hte] at hs
        simp [firstYieldSpec, hp, yieldHashSpec, hte, hs]
      | skip =>
        simp [scanRequests, hp, hte] at hs
        simp [firstYieldSpec, hp, yieldHashSpec, hte]
        exact ih hs
      | pyTypeError => simp [scanRequests, hp, hte] at hs
    · simp [scanRequests, hp] at hs
      simp [firstYieldSpec, hp]
      exact ih hs

/-- A scan loop that falls through had no matching request yielding a
hash. -/
theorem scan_missed_firstYield (d : List Char → Option JVal) (p : List Char → Bool)
    (rs : List NetRequest) (hs : scanRequests d p rs = .missed) :
    firstYieldSpec d p rs = none := by
  induction rs with
  | nil => simp [firstYieldSpec]
  | cons r rs ih =>
    by_cases hp : p (urlOf r) = true
    · cases hte : tryExtractHash d (urlOf r) with
      | ok h1 => simp [scanRequests, hp, hte] at hs
      | skip =>
        simp [scanRequests, hp, hte] at hs
        simp [firstYieldSpec, hp, yieldHashSpec, hte]
        exact ih hs
      | pyTypeError => simp [scanRequests, hp, hte] at hs
    · simp [scanRequests, hp] at hs
      simp [firstYieldSpec, hp]
      exact ih hs

/-- A hash found by the priority pass belongs to the earliest operation
of the list for which some matching request yields a hash. -/
theorem priority_found_split (d : List Char → Option JVal) (reqs : List NetRequest)
    (ops : List (List Char)) (h : JVal)
    (hp : priorityScan d reqs ops = .found h) :
    ∃ pre op post, ops = pre ++ op :: post ∧
      (∀ o ∈ pre, firstYieldSpec d (predOp o) reqs = none) ∧
      firstYieldSpec d (predOp op) reqs = some h := by
  induction ops with
  | nil => simp [priorityScan] at hp
  | cons op ops ih =>
    cases hsc : scanRequests d (predOp op) reqs with
    | found h1 =>
      simp [priorityScan, hsc] at hp
      subst hp
      exact ⟨[], op, ops, rfl, by simp, scan_found_firstYield d (predOp op) reqs h1 hsc⟩
    | aborted => simp [priorityScan, hsc] at hp
    | missed =>
      simp [priorityScan, hsc] at hp
      obtain ⟨pre, op2, post, heq, hall, hfy⟩ := ih hp
      refine ⟨op :: pre, op2, post, by simp [heq], ?_, hfy⟩
      intro o ho
      rcases List.mem_cons.mp ho with h1 | h2
      · subst h1; exact scan_missed_firstYield d (predOp o) reqs hsc
      · exact hall o h2

/-- A priority pass that falls through had, for every operation of the
list, no matching request yielding a hash. -/
theorem priority_missed_all (d : List Char → Option JVal) (reqs : List NetRequest)
    (ops : List (List Char)) (hp : priorityScan d reqs ops = .missed) :
    ∀ o ∈ ops, firstYieldSpec d (predOp o) reqs = none := by
  induction ops with
  | nil => simp
  | cons op ops ih =>
    cases hsc : scanRequests d (predOp op) reqs with
    | found h1 => simp [priorityScan, hsc] at hp
    | aborted => simp [priorityScan, hsc] at hp
    | missed =>
      simp [priorityScan, hsc] at hp
      intro o ho
      rcases List.mem_cons.mp ho with h1 | h2
      · subst h1; exact scan_missed_firstYield d (predOp o) reqs hsc
      · exact ih hp o h2


/-- A successful guarded extraction reads exactly the sha256Hash field of
the persistedQuery object. -/
theorem checkPersisted_ok (v : JVal) (h : JVal) (hc : checkPersisted v = .ok h) :
    persistedHashSpec v = some h := by
  cases v with
  | obj fs =>
    unfold checkPersisted at hc
    simp only [pyContains] at hc
    cases hg : dictGet ("persistedQuery".toList) fs with
    | none => rw [hg] at hc; exact ExtractStep.noConfusion hc
    | some pq =>
      rw [hg] at hc
      simp only [Option.isSome_some] at hc
      cases pq with
      | obj fs2 =>
        simp only [pyContains] at hc
        cases hg2 : dictGet ("sha256Hash".toList) fs2 with
        | none => rw [hg2] at hc; exact ExtractStep.noConfusion hc
        | some h2 =>
          rw [hg2] at hc
          simp only [Option.isSome_some] at hc
          injection hc with hc
          unfold persistedHashSpec
          simp only [hg, hg2, hc]
      | arr es =>
        simp only [pyContains] at hc
        cases hb : es.any (jvalIsStrEq ("sha256Hash".toList)) with
        | false => rw [hb] at hc; exact ExtractStep.noConfusion hc
        | true => rw [hb] at hc; exact ExtractStep.noConfusion hc
      | str s =>
        simp only [pyContains] at hc
        cases hb : listContains ("sha256Hash".toList) s with
        | false => rw [hb] at hc; exact ExtractStep.noConfusion hc
        | true => rw [hb] at hc; exact ExtractStep.noConfusion hc
      | num n => exact ExtractStep.noConfusion hc
      | boolV b => exact ExtractStep.noConfusion hc
      | nullV => exact ExtractStep.noConfusion hc
  | arr es =>
    unfold checkPersisted at hc
    simp only [pyContains] at hc
    cases hb : es.any (jvalIsStrEq ("persistedQuery".toList)) with
    | false => rw [hb] at hc; exact ExtractStep.noConfusion hc
    | true => rw [hb] at hc; exact ExtractStep.noConfusion hc
  | str s =>
    unfold checkPersisted at hc
    simp only [pyContains] at hc
    cases hb : listContains ("persistedQuery".toList) s with
    | false => rw [hb] at hc; exact ExtractStep.noConfusion hc
    | true => rw [hb] at hc; exact ExtractStep.noConfusion hc
  | num n => exact ExtractStep.noConfusion hc
  | boolV b => exact ExtractStep.noConfusion hc
  | nullV => exact ExtractStep.noConfusion hc

/-- A successful extraction attempt on a URL exhibits the extensions
capture, its decoded JSON value, and the hash inside it. -/
theorem tryExtract_ok_structure (d : List Char → Option JVal) (u : List Char)
    (h : JVal) (ht : tryExtractHash d u = .ok h) :
    ∃ enc v, extractExtensions u = some enc ∧ d enc = some v ∧
      persistedHashSpec v = some h := by
  cases hee : extractExtensions u with
  | none => simp [tryExtractHash, hee] at ht
  | some enc =>
    cases hd : d enc with
    | none => simp [tryExtractHash, hee, hd] at ht
    | some v =>
      simp only [tryExtractHash, hee, hd] at ht
      exact ⟨enc, v, rfl, hd, checkPersisted_ok v h ht⟩

/-- A hash found by the priority pass comes from some request of the
list. -/
theorem priority_found_mem (d : List Char → Option JVal) (reqs : List NetRequest)
    (ops : List (List Char)) (h : JVal)
    (hp : priorityScan d reqs ops = .found h) :
    ∃ r, r ∈ reqs ∧ tryExtractHash d (urlOf r) = .ok h := by
  induction ops with
  | nil => simp [priorityScan] at hp
  | cons op ops ih =>
    cases hsc : scanRequests d (predOp op) reqs with
    | found h1 =>
      simp [priorityScan, hsc] at hp
      subst hp
      obtain ⟨r, hm, _, ht⟩ := scan_found_mem d (predOp op) reqs h1 hsc
      exact ⟨r, hm, ht⟩
    | aborted => simp [priorityScan, hsc] at hp
    | missed =>
      simp [priorityScan, hsc] at hp
      exact ih hp

/-- A hash found by the complete two-pass scan comes from some request of
the list. -/
theorem fullScan_found_mem (d : List Char → Option JVal) (gql : List NetRequest)
    (h : JVal) (hf : fullScan d gql = .found h) :
    ∃ r, r ∈ gql ∧ tryExtractHash d (urlOf r) = .ok h := by
  unfold fullScan at hf
  cases hps : priorityScan d gql priorityOperations with
  | found h1 =>
    simp [hps] at hf
    subst hf
    exact priority_found_mem d gql priorityOperations h1 hps
  | aborted => simp [hps] at hf
  | missed =>
    simp [hps] at hf
    obtain ⟨r, hm, _, ht⟩ := scan_found_mem d (fun _ => true) gql h hf
    exact ⟨r, hm, ht⟩

/-- Characterization of a successful run of the extraction function: the
server URL was obtained, a result was selected, it was successful with
captured requests, and the two-pass scan found the hash. -/
theorem extract_ok_iff (env : Env) (hv : JVal) :
    extract_imdb_graphql_hash env = .ok hv ↔
      ((∃ u, get_crawl4ai_server_url env.constants = .ok u) ∧
       ∃ r, pickResult env.crawlResults = .ok r ∧ r.success = true ∧
         r.network_requests ≠ [] ∧
         fullScan env.decode (graphqlFilter r.network_requests) = .found hv) := by
  unfold extract_imdb_graphql_hash
  cases hs : get_crawl4ai_server_url env.constants with
  | error m => simp
  | ok u =>
    cases hp : pickResult env.crawlResults with
    | error m => simp
    | ok r =>
      cases hsucc : r.success with
      | false => simp [hsucc]
      | true =>
        cases hne : r.network_requests.isEmpty with
        | true => simp [hsucc, hne, List.isEmpty_iff.mp hne]
        | false =>
          have hne2 : r.network_requests ≠ [] := by
            intro hx
            rw [hx] at hne
            exact Bool.noConfusion hne
          cases hf : fullScan env.decode (graphqlFilter r.network_requests) with
          | found h1 => simp [hsucc, hne, hne2, hf]
          | aborted => simp [hsucc, hne, hne2, hf]
          | missed => simp [hsucc, hne, hne2, hf]

/-- A successful run implies the two-pass scan over the GraphQL requests
of the run found the returned hash. -/
theorem extract_ok_fullScan (env : Env) (hv : JVal)
    (hok : extract_imdb_graphql_hash env = .ok hv) :
    fullScan env.decode (gqlOf env) = .found hv := by
  obtain ⟨_, r, hp, _, _, hf⟩ := (extract_ok_iff env hv).mp hok
  simpa [gqlOf, capturedRequests, hp] using hf

/-- Matching an appended pattern at the head implies matching its first
part. -/
theorem listStartsWith_append (p s w : List Char)
    (h : listStartsWith (p ++ s) w = true) : listStartsWith p w = true := by
  induction p generalizing w with
  | nil => simp [listStartsWith]
  | cons a ps ih =>
    cases w with
    | nil => simp [listStartsWith] at h
    | cons b ws =>
      simp [listStartsWith] at h ⊢
      exact ⟨h.1, ih ws h.2⟩

/-- Containing an appended pattern implies containing its first part. -/
theorem listContains_append_mono (p s u : List Char)
    (h : listContains (p ++ s) u = true) : listContains p u = true := by
  induction u with
  | nil =>
    cases p with
    | nil => simp [listContains, listStartsWith]
    | cons a ps => simp [listContains, listStartsWith] at h
  | cons c cs ih =>
    simp [listContains] at h ⊢
    rcases h with h | h
    · exact Or.inl (listStartsWith_append p s _ h)
    · exact Or.inr (ih h)


/-! Claim theorems. -/

/-- C1: for every run in which extract_imdb_graphql_hash raises an
exception, main prints a JSON object whose success field is false and
whose error field is the string form of that exception, and the process
exits with status 1. -/
theorem c1_error_json_exit (env : Env) (e : PyExc)
    (h : extract_imdb_graphql_hash env = .error e) :
    main env = ⟨.obj [("success".toList, .boolV false),
                      ("error".toList, .str (excStr env.typeErrMsg e)),
                      ("timestamp".toList, env.timestamp)], 1⟩ := by
  unfold main
  rw [h]

/-- C1 witness: in the run with a missing constants.js, main prints the
error object with the file-not-found message and exits 1. -/
theorem c1_witness :
    main envErr = ⟨.obj [("success".toList, .boolV false),
                         ("error".toList, .str fnfMsg),
                         ("timestamp".toList, .nullV)], 1⟩ :=
  c1_error_json_exit envErr (.exc fnfMsg) rfl

/-- C2: for every run in which extract_imdb_graphql_hash returns a hash,
main prints a JSON object whose success field is true and whose hash
field is that hash, and the process exits with status 0. -/
theorem c2_success_json_exit (env : Env) (h : JVal)
    (hok : extract_imdb_graphql_hash env = .ok h) :
    main env = ⟨.obj [("success".toList, .boolV true),
                      ("hash".toList, h),
                      ("timestamp".toList, env.timestamp)], 0⟩ := by
  unfold main
  rw [hok]

/-- C2 witness: in the happy-path run, main prints the success object
carrying the extracted hash and exits 0. -/
theorem c2_witness :
    main envHappy = ⟨.obj [("success".toList, .boolV true),
                           ("hash".toList, .str ("deadbeef".toList)),
                           ("timestamp".toList, .nullV)], 0⟩ :=
  c2_success_json_exit envHappy (.str ("deadbeef".toList)) rfl

/-- C3: every value returned by extract_imdb_graphql_hash is the
sha256Hash field of the persistedQuery object of the JSON obtained by
decoding the extensions capture of some captured GraphQL request's
URL. -/
theorem c3_hash_provenance (env : Env) (hv : JVal)
    (hok : extract_imdb_graphql_hash env = .ok hv) :
    ∃ r, r ∈ capturedRequests env ∧ isGraphqlRequest r = true ∧
      ∃ enc v, extractExtensions (urlOf r) = some enc ∧ env.decode enc = some v ∧
        persistedHashSpec v = some hv := by
  have hf := extract_ok_fullScan env hv hok
  obtain ⟨r, hm, ht⟩ := fullScan_found_mem env.decode (gqlOf env) hv hf
  have hm2 := List.mem_filter.mp hm
  obtain ⟨enc, v, h1, h2, h3⟩ := tryExtract_ok_structure env.decode (urlOf r) hv ht
  exact ⟨r, hm2.1, hm2.2, enc, v, h1, h2, h3⟩

/-- C3 witness: the hash of the happy-path run comes from the captured
request of that run. -/
theorem c3_witness :
    ∃ r, r ∈ capturedRequests envHappy ∧ isGraphqlRequest r = true ∧
      ∃ enc v, extractExtensions (urlOf r) = some enc ∧
        envHappy.decode enc = some v ∧
        persistedHashSpec v = some (.str ("deadbeef".toList)) :=
  c3_hash_provenance envHappy (.str ("deadbeef".toList)) rfl

/-- C4: a returned hash comes from the earliest operation of the static
priority list for which some matching GraphQL request, scanned in capture
order, yields a parsable persisted-query hash; only when no priority
operation yields one does the scan fall back to all GraphQL requests in
capture order. -/
theorem c4_priority_selection (env : Env) (hv : JVal)
    (hok : extract_imdb_graphql_hash env = .ok hv) :
    (∃ pre op post, priorityOperations = pre ++ op :: post ∧
        (∀ o ∈ pre, firstYieldSpec env.decode (predOp o) (gqlOf env) = none) ∧
        firstYieldSpec env.decode (predOp op) (gqlOf env) = some hv) ∨
      ((∀ o ∈ priorityOperations,
          firstYieldSpec env.decode (predOp o) (gqlOf env) = none) ∧
        firstYieldSpec env.decode (fun _ => true) (gqlOf env) = some hv) := by
  have hf := extract_ok_fullScan env hv hok
  unfold fullScan at hf
  cases hps : priorityScan env.decode (gqlOf env) priorityOperations with
  | found h1 =>
    rw [hps] at hf
    have h1v : h1 = hv := by injection hf
    subst h1v
    exact Or.inl (priority_found_split env.decode (gqlOf env) priorityOperations h1 hps)
  | aborted =>
    rw [hps] at hf
    exact absurd hf (fun hx => ScanOut.noConfusion hx)
  | missed =>
    rw [hps] at hf
    exact Or.inr ⟨priority_missed_all env.decode (gqlOf env) priorityOperations hps,
      scan_found_firstYield env.decode (fun _ => true) (gqlOf env) hv hf⟩

/-- C4 witness: the priority selection property evaluated on the
happy-path run. -/
theorem c4_witness :
    (∃ pre op post, priorityOperations = pre ++ op :: post ∧
        (∀ o ∈ pre, firstYieldSpec envHappy.decode (predOp o) (gqlOf envHappy) = none) ∧
        firstYieldSpec envHappy.decode (predOp op) (gqlOf envHappy) =
          some (.str ("deadbeef".toList))) ∨
      ((∀ o ∈ priorityOperations,
          firstYieldSpec envHappy.decode (predOp o) (gqlOf envHappy) = none) ∧
        firstYieldSpec envHappy.decode (fun _ => true) (gqlOf envHappy) =
          some (.str ("deadbeef".toList))) :=
  c4_priority_selection envHappy (.str ("deadbeef".toList)) rfl

/-- C5: a captured event is kept as a GraphQL request exactly when its
event_type is the string request, its url field is present and
non-empty, and the url contains the GraphQL API host; all other events
are dropped by the filter. -/
theorem c5_graphql_filter (r : NetRequest) (rs : List NetRequest) :
    (r ∈ graphqlFilter rs ↔ (r ∈ rs ∧ isGraphqlRequest r = true)) ∧
    (isGraphqlRequest r = true ↔
      (r.event_type = some reqTypeLit ∧
       ∃ u, r.url = some u ∧ u ≠ [] ∧ listContains apiLit u = true)) := by
  constructor
  · exact List.mem_filter
  · cases r with
    | mk et uo =>
      cases uo with
      | none => simp [isGraphqlRequest]
      | some u => simp [isGraphqlRequest, List.isEmpty_iff]

/-- C6: get_crawl4ai_server_url returns the capture of the first primary
regex match whenever it matches, and raises exactly when the file cannot
be read or neither the primary nor the guarded fallback search produces a
URL. -/
theorem c6_server_url_lookup (content : Option (List Char)) :
    (∀ c u, content = some c → primarySearch c = some u →
        get_crawl4ai_server_url content = .ok u) ∧
    ((∃ m, get_crawl4ai_server_url content = .error m) ↔
      (content = none ∨ ∃ c, content = some c ∧ primarySearch c = none ∧
        (listContains tokenLit c = false ∨ fallbackSearch c = none))) := by
  cases content with
  | none =>
    refine ⟨fun c u hc _ => absurd hc (by simp), ?_⟩
    simp [get_crawl4ai_server_url]
  | some c0 =>
    constructor
    · intro c u hc hp
      injection hc with hc
      subst hc
      simp [get_crawl4ai_server_url, hp]
    · cases hps : primarySearch c0 with
      | some u => simp [get_crawl4ai_server_url, hps]
      | none =>
        cases ht : listContains tokenLit c0 with
        | false => simp [get_crawl4ai_server_url, hps, ht]
        | true =>
          cases hfb : fallbackSearch c0 with
          | some u => simp [get_crawl4ai_server_url, hps, ht, hfb]
          | none => simp [get_crawl4ai_server_url, hps, ht, hfb]

/-- C6 witness: on a constants.js declaring the server constant, the
primary capture is returned. -/
theorem c6_witness : get_crawl4ai_server_url (some cGood) = .ok urlGood :=
  (c6_server_url_lookup (some cGood)).1 cGood urlGood rfl rfl

/-- C7 counterexample: a run in which every failure condition listed by
the claim is absent (the server URL is found, the crawl returns a
successful result with captured requests, and a captured GraphQL request
carries a decodable persistedQuery hash) while the function still raises,
because an earlier request's extensions decode to the JSON number five
and the membership test on it raises an uncaught TypeError. -/
theorem c7_counterexample :
    (∃ e, extract_imdb_graphql_hash envC7 = .error e) ∧
    (∃ u, get_crawl4ai_server_url envC7.constants = .ok u) ∧
    (∃ r, pickResult envC7.crawlResults = .ok r ∧ r.success = true ∧
       r.network_requests ≠ []) ∧
    (∃ r enc v hv, r ∈ capturedRequests envC7 ∧ isGraphqlRequest r = true ∧
       extractExtensions (urlOf r) = some enc ∧ envC7.decode enc = some v ∧
       persistedHashSpec v = some hv) := by
  refine ⟨⟨.pyTypeError, rfl⟩, ⟨urlGood, rfl⟩,
    ⟨⟨true, [], [reqBad, reqG2]⟩, rfl, rfl, by simp⟩,
    ⟨reqG2, encG2, vG2, .str ("cafe".toList), ?_, rfl, rfl, rfl, rfl⟩⟩
  show reqG2 ∈ [reqBad, reqG2]
  simp

/-- C7 amended: the function raises exactly when the server URL lookup
fails, no crawl result is selected, the first result is unsuccessful or
has no captured requests, or the two-pass scan fails to produce a hash,
either by finding none or by hitting a TypeError-raising request before
any hash is found. -/
theorem c7_failure_characterization (env : Env) :
    (∃ e, extract_imdb_graphql_hash env = .error e) ↔
      ¬ ((∃ u, get_crawl4ai_server_url env.constants = .ok u) ∧
         ∃ r, pickResult env.crawlResults = .ok r ∧ r.success = true ∧
           r.network_requests ≠ [] ∧
           ∃ h, fullScan env.decode (graphqlFilter r.network_requests) = .found h) := by
  constructor
  · rintro ⟨e, he⟩ ⟨hu, r, hr, hsucc, hne, h, hf⟩
    have hok : extract_imdb_graphql_hash env = .ok h :=
      (extract_ok_iff env h).mpr ⟨hu, r, hr, hsucc, hne, hf⟩
    rw [he] at hok
    exact Except.noConfusion hok
  · intro hng
    cases hx : extract_imdb_graphql_hash env with
    | error e => exact ⟨e, rfl⟩
    | ok h =>
      obtain ⟨hu, r, hr, hsucc, hne, hf⟩ := (extract_ok_iff env h).mp hx
      exact absurd ⟨hu, r, hr, hsucc, hne, h, hf⟩ hng

/-- C8: a URL containing operationName=WatchListPageRefiner also
contains operationName=WatchListPage, so the priority pass can return a
WatchListPageRefiner hash while processing the WatchListPage priority
step, as the concrete run demonstrates. -/
theorem c8_refiner_matches_page (u : List Char)
    (h : listContains (opParamLit ++ ("WatchListPageRefiner".toList)) u = true) :
    listContains (opParamLit ++ ("WatchListPage".toList)) u = true ∧
    extractOpName urlC8 = some ("WatchListPageRefiner".toList) ∧
    predOp ("WatchListPage".toList) urlC8 = true ∧
    scanRequests decodeC8 (predOp ("WatchListPage".toList)) [reqC8] =
      .found (.str ("feed".toList)) ∧
    priorityScan decodeC8 [reqC8] priorityOperations = .found (.str ("feed".toList)) := by
  refine ⟨?_, rfl, rfl, rfl, rfl⟩
  have heq : opParamLit ++ ("WatchListPageRefiner".toList) =
      (opParamLit ++ ("WatchListPage".toList)) ++ ("Refiner".toList) := rfl
  rw [heq] at h
  exact listContains_append_mono _ _ u h

/-- C8 witness: the substring implication and the demonstration evaluated
at the WatchListPageRefiner request URL. -/
theorem c8_witness :
    listContains (opParamLit ++ ("WatchListPage".toList)) urlC8 = true ∧
    extractOpName urlC8 = some ("WatchListPageRefiner".toList) ∧
    predOp ("WatchListPage".toList) urlC8 = true ∧
    scanRequests decodeC8 (predOp ("WatchListPage".toList)) [reqC8] =
      .found (.str ("feed".toList)) ∧
    priorityScan decodeC8 [reqC8] priorityOperations = .found (.str ("feed".toList)) :=
  c8_refiner_matches_page urlC8 rfl

/-- C9: when the primary regex does not match but the constant name
occurs in the file, the function returns the capture of the fallback
search, the first quote-delimited run containing the hard-coded
address. -/
theorem c9_fallback_quoted_address (c u : List Char)
    (h1 : primarySearch c = none) (h2 : listContains tokenLit c = true)
    (h3 : fallbackSearch c = some u) :
    get_crawl4ai_server_url (some c) = .ok u := by
  simp [get_crawl4ai_server_url, h1, h2, h3]

/-- C9 witness: the fallback path evaluated on a file mentioning the
constant and quoting the hard-coded address. -/
theorem c9_witness : get_crawl4ai_server_url (some cFb) = .ok urlGood :=
  c9_fallback_quoted_address cFb urlGood rfl rfl rfl

/-- C10 counterexample: a GraphQL request whose extensions parameter is
valid JSON lacking the persistedQuery and sha256Hash keys (the number
five) aborts the scan with a TypeError instead of being skipped, and its
presence changes the outcome the later well-formed request would have
supplied. -/
theorem c10_counterexample :
    extractExtensions (urlOf reqBad) = some enc5 ∧
    decodeC7 enc5 = some (.num 5) ∧
    tryExtractHash decodeC7 (urlOf reqBad) = .pyTypeError ∧
    tryExtractHash decodeC7 (urlOf reqG2) = .ok (.str ("cafe".toList)) ∧
    scanRequests decodeC7 (fun _ => true) [reqG2] = .found (.str ("cafe".toList)) ∧
    scanRequests decodeC7 (fun _ => true) [reqBad, reqG2] = .aborted ∧
    extract_imdb_graphql_hash envC7 = .error .pyTypeError :=
  ⟨rfl, rfl, rfl, rfl, rfl, rfl, rfl⟩

/-- C10 amended: a GraphQL request whose extensions parameter is absent,
fails to decode, or decodes to a JSON object lacking persistedQuery, or
whose persistedQuery object lacks sha256Hash, is skipped by both scan
passes and never changes the scan outcome. -/
theorem c10_skip_invariance (d : List Char → Option JVal) (p : List Char → Bool)
    (r : NetRequest) (rs : List NetRequest) (ops : List (List Char))
    (h : extractExtensions (urlOf r) = none ∨
         (∃ enc, extractExtensions (urlOf r) = some enc ∧ d enc = none) ∨
         (∃ enc fs, extractExtensions (urlOf r) = some enc ∧ d enc = some (.obj fs) ∧
            dictGet ("persistedQuery".toList) fs = none) ∨
         (∃ enc fs pfs, extractExtensions (urlOf r) = some enc ∧ d enc = some (.obj fs) ∧
            dictGet ("persistedQuery".toList) fs = some (.obj pfs) ∧
            dictGet ("sha256Hash".toList) pfs = none)) :
    tryExtractHash d (urlOf r) = .skip ∧
    scanRequests d p (r :: rs) = scanRequests d p rs ∧
    priorityScan d (r :: rs) ops = priorityScan d rs ops := by
  have hskip : tryExtractHash d (urlOf r) = .skip := by
    rcases h with h | ⟨enc, h1, h2⟩ | ⟨enc, fs, h1, h2, h3⟩ | ⟨enc, fs, pfs, h1, h2, h3, h4⟩
    · simp [tryExtractHash, h]
    · simp [tryExtractHash, h1, h2]
    · simp only [tryExtractHash, h1, h2]
      unfold checkPersisted
      simp only [pyContains]
      rw [h3]
      rfl
    · simp only [tryExtractHash, h1, h2]
      unfold checkPersisted
      simp only [pyContains]
      rw [h3]
      simp only [Option.isSome_some]
      rw [h4]
      rfl
  have hscan : ∀ q : List Char → Bool,
      scanRequests d q (r :: rs) = scanRequests d q rs := by
    intro q
    cases hq : q (urlOf r) with
    | true => simp [scanRequests, hq, hskip]
    | false => simp [scanRequests, hq]
  refine ⟨hskip, hscan p, ?_⟩
  induction ops with
  | nil => rfl
  | cons op ops ih =>
    simp only [priorityScan]
    rw [hscan (predOp op), ih]

/-- C10 witness: the skip invariance evaluated on a request with no
extensions parameter placed in front of a well-formed request. -/
theorem c10_witness :
    tryExtractHash decodeC7 (urlOf reqNoExt) = .skip ∧
    scanRequests decodeC7 (fun _ => true) (reqNoExt :: [reqG2]) =
      scanRequests decodeC7 (fun _ => true) [reqG2] ∧
    priorityScan decodeC7 (reqNoExt :: [reqG2]) priorityOperations =
      priorityScan decodeC7 [reqG2] priorityOperations :=
  c10_skip_invariance decodeC7 (fun _ => true) reqNoExt [reqG2] priorityOperations
    (Or.inl rfl)

end ImdbHash
